import Mathlib

set_option maxRecDepth 8000

/-!
A shallow embedding of the agent control loop of an agentic RAG system
(`src/agent.py`, plus the citation helper of `src/app.py`), together with
theorems checking the specification's claims about evidence deduplication,
loop termination, parsing fallbacks, tool-output ingestion and citation
rendering.

Python values are embedded as the inductive `PyVal`.  Python lists and
dicts are encoded as constructor chains (`pynil`/`pycons`,
`pydnil`/`pydcons`) so that every function below is plain structural
recursion and evaluates inside the kernel.  `json.loads` and
`ast.literal_eval` are embedded as executable recursive-descent parsers
over the grammar the source relies on; `hashlib.sha256(raw).hexdigest()`
is a fixed deterministic function of `raw`, so fingerprints are
identified with their pre-image strings (equal raw strings give equal
digests; distinct raw strings are treated as distinct, i.e. digest
collisions are disregarded).
-/

namespace AgentModel

/-- Embedded Python value: `None`, `bool`, `int`, `str`, `float`
(carried as its lexeme; no float arithmetic is modelled), lists as a
`pynil`/`pycons` spine and dicts (string keys, as produced by
`json.loads`) as a `pydnil`/`pydcons` spine. -/
inductive PyVal where
  | pynone : PyVal
  | pybool (b : Bool) : PyVal
  | pyint (n : Int) : PyVal
  | pystr (s : String) : PyVal
  | pyfloat (raw : String) : PyVal
  | pynil : PyVal
  | pycons (hd tl : PyVal) : PyVal
  | pydnil : PyVal
  | pydcons (k : String) (v tl : PyVal) : PyVal
deriving DecidableEq

open PyVal

/-- The single-quote character, written via its code point. -/
def squoteChar : Char := Char.ofNat 39

/-- The backtick character, written via its code point. -/
def tickChar : Char := Char.ofNat 96

/-- The left-brace character, written via its code point. -/
def lbChar : Char := Char.ofNat 123

/-- The right-brace character, written via its code point. -/
def rbChar : Char := Char.ofNat 125

/-- Single-quote as a one-character string. -/
def squote : String := String.singleton squoteChar

/-- Python whitespace (`str.strip`, regex `\s` over ASCII): space, tab,
newline, carriage return, vertical tab, form feed. -/
def isPyWs (c : Char) : Bool :=
  c = ' ' ∨ c = '\t' ∨ c = '\n' ∨ c = '\r' ∨ c = Char.ofNat 11 ∨ c = Char.ofNat 12

/-- Python `str.strip()`: drop leading and trailing whitespace. -/
def pyStrip (s : String) : String :=
  String.mk (((s.toList.dropWhile isPyWs).reverse.dropWhile isPyWs).reverse)

/-- Python `str.lower()` (ASCII case fold suffices here). -/
def pyLower (s : String) : String :=
  String.mk (s.toList.map Char.toLower)

/-- Python string slicing `s[:n]`: the first `n` characters. -/
def strTake (n : Nat) (s : String) : String :=
  String.mk (s.toList.take n)

/-- `pat ∈ s` on character lists: substring containment test. -/
def charsContain (pat : List Char) : List Char → Bool
  | [] => pat.isEmpty
  | c :: rest => pat.isPrefixOf (c :: rest) || charsContain pat rest

/-- Python `pat in s` substring test. -/
def strContains (s pat : String) : Bool :=
  charsContain pat.toList s.toList

/-- Python `type(v).__name__`, used to build `AttributeError` messages. -/
def pyTypeName : PyVal → String
  | pynone => "NoneType"
  | pybool _ => "bool"
  | pyint _ => "int"
  | pystr _ => "str"
  | pyfloat _ => "float"
  | pynil | pycons _ _ => "list"
  | pydnil | pydcons _ _ _ => "dict"

/-- The message of the `AttributeError` raised when attribute `attr` is
looked up on value `v`. -/
def attrErrMsg (v : PyVal) (attr : String) : String :=
  squote ++ pyTypeName v ++ squote ++ " object has no attribute " ++ squote ++ attr ++ squote

/-- Is the value a Python list (`isinstance(v, list)`)? -/
def pyIsList : PyVal → Bool
  | pynil | pycons _ _ => true
  | _ => false

/-- Is the value a Python dict? -/
def pyIsDict : PyVal → Bool
  | pydnil | pydcons _ _ _ => true
  | _ => false

/-- View of a list-shaped value as a Lean list of its elements. -/
def pyToListD : PyVal → List PyVal
  | pycons h t => h :: pyToListD t
  | _ => []

/-- Build a Python list value from a Lean list. -/
def listToPy : List PyVal → PyVal
  | [] => pynil
  | h :: t => pycons h (listToPy t)

/-- Build a Python dict value from key/value pairs (keys unique). -/
def mkDict : List (String × PyVal) → PyVal
  | [] => pydnil
  | (k, v) :: t => pydcons k v (mkDict t)

/-- Python `d.get(key, dflt)` on a dict-shaped value.  On a non-dict the
source raises `AttributeError`; all call sites below either guard with
`pyIsDict` or model the raise separately, so the non-dict branch of this
total helper is never the meaning of any reachable source path. -/
def dictGetD : PyVal → String → PyVal → PyVal
  | pydcons k v tl, key, dflt => if k = key then v else dictGetD tl key dflt
  | _, _, dflt => dflt

/-- Python `d.get(key, dflt)` with the `AttributeError` on a non-dict
receiver made explicit (`Option.none` = the attribute lookup raises). -/
def pyGetOpt (v : PyVal) (key : String) (dflt : PyVal) : Option PyVal :=
  if pyIsDict v then some (dictGetD v key dflt) else Option.none

/-- Does the dict-shaped value carry the key? -/
def dictHasKey : PyVal → String → Bool
  | pydcons k _ tl, key => k = key || dictHasKey tl key
  | _, _ => false

/-- Update-or-insert for dict spines (Python dict insertion keeps the
first position of a key but the last assigned value). -/
def dictUpdate : PyVal → String → PyVal → PyVal
  | pydcons k v tl, key, nv => if k = key then pydcons k nv tl else pydcons k v (dictUpdate tl key nv)
  | pydnil, key, nv => pydcons key nv pydnil
  | other, _, _ => other

/-- Truthiness of a float lexeme (used only through `pyTruthy`). -/
def floatTruthy (raw : String) : Bool :=
  raw.toList.any (fun c => (c.isDigit ∧ c ≠ '0') ∨ (c.isAlpha ∧ c ≠ 'e' ∧ c ≠ 'E'))

/-- Python truthiness (`bool(v)`). -/
def pyTruthy : PyVal → Bool
  | pynone => false
  | pybool b => b
  | pyint n => n ≠ 0
  | pystr s => s ≠ ""
  | pyfloat raw => floatTruthy raw
  | pynil => false
  | pycons _ _ => true
  | pydnil => false
  | pydcons _ _ _ => true

/-- Escape a character for Python `repr` of a string with the given
quote character. -/
def pyReprEscChar (q c : Char) : String :=
  if c = '\\' then "\\\\"
  else if c = q then "\\" ++ String.singleton q
  else if c = '\n' then "\\n"
  else if c = '\r' then "\\r"
  else if c = '\t' then "\\t"
  else String.singleton c

/-- Python `repr` of a string: single quotes, unless the string holds a
single quote and no double quote, in which case double quotes. -/
def pyReprStr (s : String) : String :=
  let q := if s.toList.contains squoteChar ∧ ¬ s.toList.contains '"' then '"' else squoteChar
  String.singleton q ++ String.join (s.toList.map (pyReprEscChar q)) ++ String.singleton q

/-- Python `repr` (flag `true`) and the comma-separated continuation of
a list/dict spine (flag `false`), written as one structural recursion.
`str` and `repr` agree on every value except top-level strings. -/
def pyReprM : Bool → PyVal → String
  | _, pynone => "None"
  | _, pybool true => "True"
  | _, pybool false => "False"
  | _, pyint n => toString n
  | _, pystr s => pyReprStr s
  | _, pyfloat raw => raw
  | true, pynil => "[]"
  | false, pynil => ""
  | true, pycons h t => "[" ++ pyReprM true h ++ pyReprM false t ++ "]"
  | false, pycons h t => ", " ++ pyReprM true h ++ pyReprM false t
  | true, pydnil => "\x7b\x7d"
  | false, pydnil => ""
  | true, pydcons k v t => "\x7b" ++ pyReprStr k ++ ": " ++ pyReprM true v ++ pyReprM false t ++ "\x7d"
  | false, pydcons k v t => ", " ++ pyReprStr k ++ ": " ++ pyReprM true v ++ pyReprM false t

/-- Python `repr(v)`. -/
def pyRepr (v : PyVal) : String := pyReprM true v

/-- Python `str(v)` / f-string interpolation of `v`. -/
def pyStr : PyVal → String
  | pystr s => s
  | v => pyReprM true v

/-! ### Fence stripping (`re.sub(r"```json\s*", "", text)` and
`.replace("```", "")`) -/

/-- After the first backtick of a candidate ```json fence: the rest of
the input past ``` `json`` when the next five characters complete the
fence, `Option.none` otherwise. -/
def fenceTail : List Char → Option (List Char)
  | t2 :: t3 :: 'j' :: 's' :: 'o' :: 'n' :: rest2 =>
    if t2 = tickChar ∧ t3 = tickChar then some rest2 else Option.none
  | _ => Option.none

/-- After the first backtick of a candidate ``` run: the rest past the
remaining two backticks when they are present. -/
def tickTail : List Char → Option (List Char)
  | t2 :: t3 :: rest2 =>
    if t2 = tickChar ∧ t3 = tickChar then some rest2 else Option.none
  | _ => Option.none

/-- One pass of `re.sub(r"```json\s*", "", text)` as a scan over the
character list.  The `Bool` flag is true while inside the `\s*` tail of
a match (regex scanning resumes after the consumed whitespace).  Fuel
makes the recursion structural; every step consumes at least one
character, so the entry point's fuel never runs out. -/
def stripFencesGo : Nat → Bool → List Char → List Char
  | 0, _, cs => cs
  | fuel + 1, sw, cs =>
    match cs with
    | [] => []
    | c :: rest =>
      if sw ∧ isPyWs c then stripFencesGo fuel true rest
      else if c = tickChar then
        match fenceTail rest with
        | some rest2 => stripFencesGo fuel true rest2
        | Option.none => c :: stripFencesGo fuel false rest
      else c :: stripFencesGo fuel false rest

/-- `re.sub(r"```json\s*", "", text)`. -/
def stripJsonFences (cs : List Char) : List Char :=
  stripFencesGo (cs.length + 1) false cs

/-- `.replace("```", "")`, left-to-right and non-overlapping. -/
def stripTicksGo : Nat → List Char → List Char
  | 0, cs => cs
  | fuel + 1, cs =>
    match cs with
    | [] => []
    | c :: rest =>
      if c = tickChar then
        match tickTail rest with
        | some rest2 => stripTicksGo fuel rest2
        | Option.none => c :: stripTicksGo fuel rest
      else c :: stripTicksGo fuel rest

/-- `.replace("```", "")`. -/
def stripTicks (cs : List Char) : List Char :=
  stripTicksGo (cs.length + 1) cs

/-- The fence-stripping prelude shared by `_parse_json_list` and
`_parse_critic_output`: strip ```json fences, strip remaining ``` runs,
then `.strip()`. -/
def stripDecoration (text : String) : String :=
  pyStrip (String.mk (stripTicks (stripJsonFences text.toList)))

/-! ### `re.search(r"\{.*?\}", text, re.DOTALL)` -/

/-- Continuation of the brace match: everything up to and including the
first closing brace. -/
def takeToRbrace : List Char → Option (List Char)
  | [] => Option.none
  | c :: rest =>
    if c = rbChar then some [c]
    else (takeToRbrace rest).map (fun t => c :: t)

/-- Leftmost-shortest match of `\{.*?\}` with DOTALL: from the first
left brace to the first right brace after it (no match otherwise). -/
def braceExtract : List Char → Option (List Char)
  | [] => Option.none
  | c :: rest =>
    if c = lbChar then (takeToRbrace rest).map (fun t => c :: t)
    else braceExtract rest

/-! ### `json.loads`, embedded as an executable parser

Strict JSON values over the grammar `json.loads` accepts: `null`,
`true`, `false`, `NaN`/`Infinity`/`-Infinity` (accepted by Python's
default `allow_nan=True`), numbers, double-quoted strings with escapes,
arrays and objects.  Numbers with a fraction or exponent become
`pyfloat` lexemes.  The `fuel` argument makes the recursion structural;
it is initialised to more than the input length, and every recursive
descent consumes at least one character, so fuel never runs out on the
inputs the top-level entry point passes. -/

/-- JSON whitespace skip (space, tab, newline, carriage return). -/
def jpSkipWs (cs : List Char) : List Char :=
  cs.dropWhile (fun c => c = ' ' ∨ c = '\t' ∨ c = '\n' ∨ c = '\r')

/-- Hex digit value. -/
def hexVal (c : Char) : Option Nat :=
  if c.isDigit then some (c.toNat - 48)
  else if 'a' ≤ c ∧ c ≤ 'f' then some (c.toNat - 87)
  else if 'A' ≤ c ∧ c ≤ 'F' then some (c.toNat - 55)
  else Option.none

/-- JSON string body after the opening quote; `acc` holds the parsed
characters in reverse. -/
def jpStringGo : List Char → List Char → Option (String × List Char)
  | _, [] => Option.none
  | acc, c :: rest =>
    if c = '"' then some (String.mk acc.reverse, rest)
    else if c = '\\' then
      match rest with
      | [] => Option.none
      | e :: rest2 =>
        if e = '"' then jpStringGo ('"' :: acc) rest2
        else if e = '\\' then jpStringGo ('\\' :: acc) rest2
        else if e = '/' then jpStringGo ('/' :: acc) rest2
        else if e = 'b' then jpStringGo (Char.ofNat 8 :: acc) rest2
        else if e = 'f' then jpStringGo (Char.ofNat 12 :: acc) rest2
        else if e = 'n' then jpStringGo ('\n' :: acc) rest2
        else if e = 'r' then jpStringGo ('\r' :: acc) rest2
        else if e = 't' then jpStringGo ('\t' :: acc) rest2
        else if e = 'u' then
          match rest2 with
          | h1 :: h2 :: h3 :: h4 :: rest3 =>
            match hexVal h1, hexVal h2, hexVal h3, hexVal h4 with
            | some a, some b, some c2, some d =>
              jpStringGo (Char.ofNat (a * 4096 + b * 256 + c2 * 16 + d) :: acc) rest3
            | _, _, _, _ => Option.none
          | _ => Option.none
        else Option.none
    else if c.toNat < 32 then Option.none
    else jpStringGo (c :: acc) rest

/-- Digits of a decimal literal as a natural number. -/
def digitsToNat (ds : List Char) : Nat :=
  ds.foldl (fun acc c => acc * 10 + (c.toNat - 48)) 0

/-- Fraction part of a number lexeme (`.` followed by digits); when the
dot is not followed by digits nothing is consumed, and the dangling dot
then fails the enclosing parse exactly as it fails `json.loads`. -/
def jpFracPart (cs : List Char) : List Char × List Char :=
  match cs with
  | '.' :: rest =>
    match rest.span Char.isDigit with
    | ([], _) => ([], cs)
    | (fs, rest2) => ('.' :: fs, rest2)
  | _ => ([], cs)

/-- Exponent part of a number lexeme (`e`/`E`, optional sign, digits);
when incomplete nothing is consumed (the dangling characters then fail
the enclosing parse, as in `json.loads`). -/
def jpExpPart (cs : List Char) : List Char × List Char :=
  match cs with
  | e :: rest =>
    if e = 'e' ∨ e = 'E' then
      match rest with
      | s :: rest2 =>
        if s = '+' ∨ s = '-' then
          match rest2.span Char.isDigit with
          | ([], _) => ([], cs)
          | (es, rest3) => (e :: s :: es, rest3)
        else
          match rest.span Char.isDigit with
          | ([], _) => ([], cs)
          | (es, rest3) => (e :: es, rest3)
      | [] => ([], cs)
    else ([], cs)
  | [] => ([], cs)

/-- JSON number: optional minus, integer part (`0` or a nonzero-led
digit run), optional fraction and exponent.  A fraction or exponent
makes it a `pyfloat` carrying the lexeme. -/
def jpNumber (cs : List Char) : Option (PyVal × List Char) :=
  let (neg, cs1) := match cs with
    | '-' :: rest => (true, rest)
    | rest => (false, rest)
  match cs1.span Char.isDigit with
  | ([], _) => Option.none
  | (d :: ds, cs2) =>
    if d = '0' ∧ ds ≠ [] then Option.none
    else
      let (fracDigits, cs3) := jpFracPart cs2
      let (expDigits, cs4) := jpExpPart cs3
      if fracDigits = [] ∧ expDigits = [] then
        let n : Int := Int.ofNat (digitsToNat (d :: ds))
        some (pyint (if neg then -n else n), cs2)
      else
        let lexeme := (if neg then ['-'] else []) ++ (d :: ds) ++ fracDigits ++ expDigits
        some (pyfloat (String.mk lexeme), cs4)

/-- Array elements after the first value position (given the value
parser `pv` for the current fuel level). -/
def jpElems (pv : List Char → Option (PyVal × List Char)) :
    Nat → List Char → List PyVal → Option (List PyVal × List Char)
  | 0, _, _ => Option.none
  | fuel + 1, cs, acc =>
    match pv cs with
    | Option.none => Option.none
    | some (v, rest) =>
      match jpSkipWs rest with
      | c :: rest2 =>
        if c = ',' then jpElems pv fuel rest2 (acc ++ [v])
        else if c = ']' then some (acc ++ [v], rest2)
        else Option.none
      | [] => Option.none

/-- Object members (given the value parser `pv`); duplicate keys keep
the last value, as in Python. -/
def jpMembers (pv : List Char → Option (PyVal × List Char)) :
    Nat → List Char → PyVal → Option (PyVal × List Char)
  | 0, _, _ => Option.none
  | fuel + 1, cs, acc =>
    match jpSkipWs cs with
    | '"' :: rest =>
      match jpStringGo [] rest with
      | Option.none => Option.none
      | some (key, rest2) =>
        match jpSkipWs rest2 with
        | ':' :: rest3 =>
          match pv rest3 with
          | Option.none => Option.none
          | some (v, rest4) =>
            let acc2 := dictUpdate acc key v
            match jpSkipWs rest4 with
            | c :: rest5 =>
              if c = ',' then jpMembers pv fuel rest5 acc2
              else if c = rbChar then some (acc2, rest5)
              else Option.none
            | [] => Option.none
        | _ => Option.none
    | _ => Option.none

/-- JSON value parser at a given fuel level. -/
def jpValueN : Nat → List Char → Option (PyVal × List Char)
  | 0, _ => Option.none
  | fuel + 1, cs0 =>
    match jpSkipWs cs0 with
    | [] => Option.none
    | 'n' :: 'u' :: 'l' :: 'l' :: rest => some (pynone, rest)
    | 't' :: 'r' :: 'u' :: 'e' :: rest => some (pybool true, rest)
    | 'f' :: 'a' :: 'l' :: 's' :: 'e' :: rest => some (pybool false, rest)
    | 'N' :: 'a' :: 'N' :: rest => some (pyfloat "NaN", rest)
    | 'I' :: 'n' :: 'f' :: 'i' :: 'n' :: 'i' :: 't' :: 'y' :: rest =>
      some (pyfloat "Infinity", rest)
    | '-' :: 'I' :: 'n' :: 'f' :: 'i' :: 'n' :: 'i' :: 't' :: 'y' :: rest =>
      some (pyfloat "-Infinity", rest)
    | '"' :: rest => (jpStringGo [] rest).map (fun p => (pystr p.1, p.2))
    | c :: rest =>
      if c = '[' then
        match jpSkipWs rest with
        | c2 :: rest2 =>
          if c2 = ']' then some (pynil, rest2)
          else
            (jpElems (jpValueN fuel) fuel rest []).map (fun p => (listToPy p.1, p.2))
        | [] => Option.none
      else if c = lbChar then
        match jpSkipWs rest with
        | c2 :: rest2 =>
          if c2 = rbChar then some (pydnil, rest2)
          else (jpMembers (jpValueN fuel) fuel rest pydnil)
        | [] => Option.none
      else if c = '-' ∨ c.isDigit then jpNumber (c :: rest)
      else Option.none

/-- `json.loads(s)`: one JSON value spanning the whole input (modulo
surrounding whitespace); `Option.none` models `JSONDecodeError`. -/
def jsonParse (s : String) : Option PyVal :=
  match jpValueN (s.length + 2) s.toList with
  | some (v, rest) => if jpSkipWs rest = [] then some v else Option.none
  | Option.none => Option.none

/-! ### `ast.literal_eval`, embedded as an executable parser

The permissive-literal fallback of the critic parser.  Modelled from
the Python stdlib over the literal forms the agent encounters: `None`,
`True`, `False`, signed decimal numbers, single- or double-quoted
strings with the common escapes (an unknown escape keeps its
backslash, as in Python), lists and tuples (a tuple is represented by
the same list value — the source only ever probes the result with
`.get`, which treats both alike), and dicts whose keys are string
literals.  `Option.none` models `ValueError`/`SyntaxError`. -/

/-- Python string-literal body with quote character `q`; `acc` holds
parsed characters in reverse. -/
def peStringGo (q : Char) : List Char → List Char → Option (String × List Char)
  | _, [] => Option.none
  | acc, c :: rest =>
    if c = q then some (String.mk acc.reverse, rest)
    else if c = '\\' then
      match rest with
      | [] => Option.none
      | e :: rest2 =>
        if e = squoteChar then peStringGo q (squoteChar :: acc) rest2
        else if e = '"' then peStringGo q ('"' :: acc) rest2
        else if e = '\\' then peStringGo q ('\\' :: acc) rest2
        else if e = 'n' then peStringGo q ('\n' :: acc) rest2
        else if e = 't' then peStringGo q ('\t' :: acc) rest2
        else if e = 'r' then peStringGo q ('\r' :: acc) rest2
        else if e = 'f' then peStringGo q (Char.ofNat 12 :: acc) rest2
        else if e = 'b' then peStringGo q (Char.ofNat 8 :: acc) rest2
        else if e = 'v' then peStringGo q (Char.ofNat 11 :: acc) rest2
        else if e = '0' then peStringGo q (Char.ofNat 0 :: acc) rest2
        else if e = 'x' then
          match rest2 with
          | h1 :: h2 :: rest3 =>
            match hexVal h1, hexVal h2 with
            | some a, some b => peStringGo q (Char.ofNat (a * 16 + b) :: acc) rest3
            | _, _ => Option.none
          | _ => Option.none
        else peStringGo q (e :: '\\' :: acc) rest2
    else peStringGo q (c :: acc) rest

/-- Python number literal (after an optional already-consumed sign):
decimal integer or float lexeme. -/
def peNumber (neg : Bool) (cs : List Char) : Option (PyVal × List Char) :=
  match cs.span Char.isDigit with
  | ([], _) => Option.none
  | (d :: ds, cs2) =>
    if d = '0' ∧ ds ≠ [] then Option.none
    else
      let (fracDigits, cs3) := jpFracPart cs2
      let (expDigits, cs4) := jpExpPart cs3
      if fracDigits = [] ∧ expDigits = [] then
        let n : Int := Int.ofNat (digitsToNat (d :: ds))
        some (pyint (if neg then -n else n), cs2)
      else
        let lexeme := (if neg then ['-'] else []) ++ (d :: ds) ++ fracDigits ++ expDigits
        some (pyfloat (String.mk lexeme), cs4)

/-- Sequence elements up to the closing character `close` (right
bracket or parenthesis), allowing a trailing comma as Python does. -/
def peElems (pv : List Char → Option (PyVal × List Char)) (close : Char) :
    Nat → List Char → List PyVal → Option (List PyVal × List Char)
  | 0, _, _ => Option.none
  | fuel + 1, cs, acc =>
    match pv cs with
    | Option.none => Option.none
    | some (v, rest) =>
      match jpSkipWs rest with
      | c :: rest2 =>
        if c = ',' then
          match jpSkipWs rest2 with
          | c2 :: rest3 =>
            if c2 = close then some (acc ++ [v], rest3)
            else peElems pv close fuel rest2 (acc ++ [v])
          | [] => Option.none
        else if c = close then some (acc ++ [v], rest2)
        else Option.none
      | [] => Option.none

/-- Dict members `key: value` with string-literal keys, up to the
closing brace, allowing a trailing comma. -/
def peMembers (pv : List Char → Option (PyVal × List Char)) :
    Nat → List Char → PyVal → Option (PyVal × List Char)
  | 0, _, _ => Option.none
  | fuel + 1, cs, acc =>
    match jpSkipWs cs with
    | q :: rest =>
      if q = squoteChar ∨ q = '"' then
        match peStringGo q [] rest with
        | Option.none => Option.none
        | some (key, rest2) =>
          match jpSkipWs rest2 with
          | ':' :: rest3 =>
            match pv rest3 with
            | Option.none => Option.none
            | some (v, rest4) =>
              let acc2 := dictUpdate acc key v
              match jpSkipWs rest4 with
              | c :: rest5 =>
                if c = ',' then
                  match jpSkipWs rest5 with
                  | c2 :: rest6 =>
                    if c2 = rbChar then some (acc2, rest6)
                    else peMembers pv fuel rest5 acc2
                  | [] => Option.none
                else if c = rbChar then some (acc2, rest5)
                else Option.none
              | [] => Option.none
          | _ => Option.none
      else Option.none
    | [] => Option.none

/-- Python literal parser at a given fuel level. -/
def peValueN : Nat → List Char → Option (PyVal × List Char)
  | 0, _ => Option.none
  | fuel + 1, cs0 =>
    match jpSkipWs cs0 with
    | [] => Option.none
    | 'N' :: 'o' :: 'n' :: 'e' :: rest => some (pynone, rest)
    | 'T' :: 'r' :: 'u' :: 'e' :: rest => some (pybool true, rest)
    | 'F' :: 'a' :: 'l' :: 's' :: 'e' :: rest => some (pybool false, rest)
    | c :: rest =>
      if c = '-' then peNumber true (jpSkipWs rest)
      else if c = '+' then peNumber false (jpSkipWs rest)
      else if c.isDigit then peNumber false (c :: rest)
      else if c = squoteChar ∨ c = '"' then
        (peStringGo c [] rest).map (fun p => (pystr p.1, p.2))
      else if c = '[' then
        match jpSkipWs rest with
        | c2 :: rest2 =>
          if c2 = ']' then some (pynil, rest2)
          else (peElems (peValueN fuel) ']' fuel rest []).map (fun p => (listToPy p.1, p.2))
        | [] => Option.none
      else if c = '(' then
        match jpSkipWs rest with
        | c2 :: rest2 =>
          if c2 = ')' then some (pynil, rest2)
          else (peElems (peValueN fuel) ')' fuel rest []).map (fun p => (listToPy p.1, p.2))
        | [] => Option.none
      else if c = lbChar then
        match jpSkipWs rest with
        | c2 :: rest2 =>
          if c2 = rbChar then some (pydnil, rest2)
          else peMembers (peValueN fuel) fuel rest pydnil
        | [] => Option.none
      else Option.none

/-- `ast.literal_eval(s)`: one literal spanning the whole input (modulo
surrounding whitespace). -/
def literalEval (s : String) : Option PyVal :=
  match peValueN (s.length + 2) s.toList with
  | some (v, rest) => if jpSkipWs rest = [] then some v else Option.none
  | Option.none => Option.none

/-! ### `src/agent.py` helpers -/

/-- `_parse_json_list` (`src/agent.py` lines 53-61): strip fence
decoration, `json.loads`, and when the result is a list keep the
stripped string forms of its elements that are non-blank; anything else
yields the empty list. -/
def parse_json_list (text0 : String) : List String :=
  let text := stripDecoration text0
  match jsonParse text with
  | some v =>
    if pyIsList v then
      ((pyToListD v).map (fun x => pyStrip (pyStr x))).filter (fun s => s ≠ "")
    else []
  | Option.none => []

/-- `planner_node`'s plan selection (`src/agent.py` line 107):
`_parse_json_list(plan_text) or [user_query]`. -/
def planner_subquestions (plan_text user_query : String) : List String :=
  let subqs := parse_json_list plan_text
  if subqs = [] then [user_query] else subqs

/-- `_parse_critic_output` (`src/agent.py` lines 63-74): strip fences,
extract the leftmost-shortest brace span, then try `json.loads`, then
`ast.literal_eval`, then the keyword heuristic (`"retry" in
text.lower()`).  Note the parsed value is returned as-is, whatever its
shape. -/
def parse_critic_output (text0 : String) : PyVal :=
  let text := stripDecoration text0
  let clean := match braceExtract text.toList with
    | some m => String.mk m
    | Option.none => text
  match jsonParse clean with
  | some v => v
  | Option.none =>
    match literalEval clean with
    | some v => v
    | Option.none =>
      let status := if strContains (pyLower text) "retry" then "RETRY" else "OK"
      mkDict [("status", pystr status), ("notes", pystr text)]

/-- `critic_node`'s state update (`src/agent.py` lines 196-200):
`decision.get("status", "OK")` and `decision.get("notes", "")` on the
parsed critic output.  `Option.none` models the `AttributeError`
raised (and escaping the node) when the parsed value is not a dict. -/
def critic_node_update (model_output : String) : Option (PyVal × PyVal) :=
  let decision := parse_critic_output model_output
  match pyGetOpt decision "status" (pystr "OK"), pyGetOpt decision "notes" (pystr "") with
  | some s, some n => some (s, n)
  | _, _ => Option.none

/-- `_compute_chunk_hash` (`src/agent.py` lines 79-81).  The source
feeds `f"{chunk.get('source')}||{chunk.get('page')}||{chunk.get('content')}"`
to `hashlib.sha256(...).hexdigest()`; the digest is a fixed
deterministic function of that raw string, so the fingerprint is
identified with the raw string itself (collisions disregarded).
`Option.none` models the `AttributeError` raised when the chunk is not
a dict. -/
def compute_chunk_hash (chunk : PyVal) : Option String :=
  if pyIsDict chunk then
    some (pyStr (dictGetD chunk "source" pynone) ++ "||"
      ++ pyStr (dictGetD chunk "page" pynone) ++ "||"
      ++ pyStr (dictGetD chunk "content" pynone))
  else Option.none

/-! ### Executor state and evidence merge -/

/-- The executor-local mutable state: the evidence accumulator, the
`existing_hashes` set (a list used only through membership), the tool
trace and the running summary. -/
structure EState where
  evidence : List PyVal
  hashes : List String
  trace : List String
  summary : String
deriving DecidableEq

/-- The 150-character preview appended to the running summary when a
chunk is accepted (`src/agent.py` line 165):
`f"\n- {chunk.get('content','').strip()[:150]}..."`.  `Option.none`
models the `AttributeError` when the chunk is not a dict or its
`content` is not a string. -/
def previewItem (chunk : PyVal) : Option String :=
  if pyIsDict chunk then
    match dictGetD chunk "content" (pystr "") with
    | pystr s => some ("\n- " ++ strTake 150 (pyStrip s) ++ "...")
    | _ => Option.none
  else Option.none

/-- The per-chunk line of the initial running summary (`src/agent.py`
line 118): `f"- {c.get('content','').strip()[:100]}...\n"`. -/
def initItem (chunk : PyVal) : Option String :=
  if pyIsDict chunk then
    match dictGetD chunk "content" (pystr "") with
    | pystr s => some ("- " ++ strTake 100 (pyStrip s) ++ "...\n")
    | _ => Option.none
  else Option.none

/-- Python `xs[-n:]`. -/
def lastN (n : Nat) (xs : List PyVal) : List PyVal :=
  xs.drop (xs.length - n)

/-- Sequence the initial-summary lines over a chunk list. -/
def initItems : List PyVal → Option (List String)
  | [] => some []
  | c :: rest =>
    match initItem c, initItems rest with
    | some h, some t => some (h :: t)
    | _, _ => Option.none

/-- The running summary built once at the start of `executor_node`
(`src/agent.py` lines 116-120): `"Prior Evidence:\n"` plus a
100-character preview of each of the last 5 chunks, replaced by the
explicit marker when no evidence has been gathered yet. -/
def initialSummary (evidence : List PyVal) : Option String :=
  if evidence.length = 0 then some "No evidence gathered yet."
  else (initItems (lastN 5 evidence)).map (fun items => "Prior Evidence:\n" ++ String.join items)

/-- The `existing_hashes` set built on executor entry (`src/agent.py`
line 114); `Option.none` models the raise on a non-dict chunk. -/
def hashesInit : List PyVal → Option (List String)
  | [] => some []
  | c :: rest =>
    match compute_chunk_hash c, hashesInit rest with
    | some h, some t => some (h :: t)
    | _, _ => Option.none

/-- The candidate-chunk merge loop (`src/agent.py` lines 160-165): for
each chunk compute the fingerprint, discard the chunk when the
fingerprint is already present, otherwise append the chunk, record the
fingerprint and extend the running summary with a 150-character
preview.  The second component carries the message of an exception
raised mid-loop (caught by the executor's generic handler); mutations
made before the raise persist, and the remaining chunks are skipped. -/
def mergeChunksE (st : EState) : List PyVal → EState × Option String
  | [] => (st, Option.none)
  | c :: rest =>
    match compute_chunk_hash c with
    | Option.none => (st, some (attrErrMsg c "get"))
    | some h =>
      if h ∈ st.hashes then mergeChunksE st rest
      else
        let st1 : EState :=
          { st with evidence := st.evidence ++ [c], hashes := st.hashes ++ [h] }
        match previewItem c with
        | Option.none => (st1, some (attrErrMsg (dictGetD c "content" (pystr "")) "strip"))
        | some p => mergeChunksE { st1 with summary := st1.summary ++ p } rest

/-! ### Tool-output ingestion (`src/agent.py` lines 149-172) -/

/-- How `executor_node` classifies a tool result (lines 153-159): a raw
list is taken as the chunk sequence directly; otherwise `str(raw)` is
fed to `json.loads`, and the parse either yields a list, yields a
non-list value, or fails with `JSONDecodeError`. -/
inductive IngestCase where
  | chunkList (l : List PyVal) : IngestCase
  | nonList : IngestCase
  | badJson : IngestCase
deriving DecidableEq

/-- Classify a successful tool result. -/
def ingestCase (raw : PyVal) : IngestCase :=
  if pyIsList raw then IngestCase.chunkList (pyToListD raw)
  else
    match jsonParse (pyStr raw) with
    | some v =>
      if pyIsList v then IngestCase.chunkList (pyToListD v) else IngestCase.nonList
    | Option.none => IngestCase.badJson

/-- Ingest one successful tool result into the executor state
(`src/agent.py` lines 153-172, after `tool.invoke` has returned
`raw`).  A non-list parse appends a warning to the trace; a failed
parse appends the not-valid-JSON warning; an exception raised inside
the merge loop is caught by the surrounding `except Exception` handler,
which appends an `ERR:` line and replaces the tool message text (the
second component carries that replacement).  Every branch returns a
state: ingestion never raises out of the executor. -/
def ingest_tool_output (st : EState) (tname raw : PyVal) : EState × Option String :=
  match ingestCase raw with
  | IngestCase.chunkList l =>
    match mergeChunksE st l with
    | (st1, Option.none) => (st1, Option.none)
    | (st1, some e) =>
      let out := "Error executing " ++ pyStr tname ++ ": " ++ e
      ({ st1 with trace := st1.trace ++ ["ERR: " ++ out] }, some out)
  | IngestCase.nonList =>
    ({ st with trace := st.trace ++ ["WARN: Tool " ++ pyStr tname ++ " returned non-list data"] },
      Option.none)
  | IngestCase.badJson =>
    ({ st with trace := st.trace ++ ["WARN: Tool " ++ pyStr tname ++ " output was not valid JSON"] },
      Option.none)

/-! ### The executor's tool-calling loop (`src/agent.py` lines 110-187)

The language model's tool-enabled completion capability is an oracle
function from the accumulated message list to a response; tools are
named functions that either return a value or raise (`Except.error`
carries the exception text).  `Option.none` at the executor level
models an exception escaping `executor_node` (only possible from
`tc.get` on a non-dict tool-call record, or from the entry-time hash
and summary construction). -/

/-- A tool-enabled model response: text content plus requested tool
calls (each a dict-shaped record, as in the source's `tc.get(...)`). -/
structure AIMsg where
  content : String
  tool_calls : List PyVal
deriving DecidableEq

/-- A message in the executor's per-subquestion transcript. -/
inductive Msg where
  | system (content : String) : Msg
  | human (content : String) : Msg
  | ai (m : AIMsg) : Msg
  | tool (content : String) (tool_call_id : PyVal) : Msg
deriving DecidableEq

/-- A bound tool: name and implementation. -/
structure ToolDef where
  name : String
  fn : PyVal → Except String PyVal

/-- `_tool_map` plus `tools_by_name.get(tname)` (`src/agent.py` lines
76-77, 144): a dict comprehension keyed by name, so a duplicated name
keeps the last tool; lookup misses on non-string names. -/
def toolLookup (tools : List ToolDef) : PyVal → Option ToolDef
  | pystr s => tools.reverse.find? (fun t => t.name = s)
  | _ => Option.none

/-- Process one requested tool call (`src/agent.py` lines 136-174):
read `name`, `args` and the id chain off the record, skip nameless
calls, dispatch (unknown tool names become an error-text result),
invoke (an exception becomes an error-text result and an `ERR:` trace
line), ingest the result, and append the `ToolMessage`.  `Option.none`
models the uncaught raise of `tc.get` on a non-dict record. -/
def handleToolCall (tools : List ToolDef) (stm : EState × List Msg) (tc : PyVal) :
    Option (EState × List Msg) :=
  if pyIsDict tc then
    let st := stm.1
    let msgs := stm.2
    let tname := dictGetD tc "name" pynone
    let targs := dictGetD tc "args" pydnil
    let tid :=
      let a := dictGetD tc "id" pynone
      if pyTruthy a then a
      else
        let b := dictGetD tc "tool_call_id" pynone
        if pyTruthy b then b else tname
    if ¬ pyTruthy tname then some (st, msgs)
    else
      let st := { st with trace := st.trace ++ ["TOOL: " ++ pyStr tname] }
      match toolLookup tools tname with
      | Option.none =>
        let out := "Error: Tool " ++ squote ++ pyStr tname ++ squote ++ " not found."
        some (st, msgs ++ [Msg.tool out tid])
      | some tool =>
        match tool.fn targs with
        | Except.error e =>
          let out := "Error executing " ++ pyStr tname ++ ": " ++ e
          some ({ st with trace := st.trace ++ ["ERR: " ++ out] }, msgs ++ [Msg.tool out tid])
        | Except.ok raw =>
          match ingest_tool_output st tname raw with
          | (st1, Option.none) => some (st1, msgs ++ [Msg.tool (pyStr raw) tid])
          | (st1, some out) => some (st1, msgs ++ [Msg.tool out tid])
  else Option.none

/-- Fold `handleToolCall` over the requested calls of one response. -/
def processToolCalls (tools : List ToolDef) : List PyVal → EState × List Msg →
    Option (EState × List Msg)
  | [], stm => some stm
  | tc :: rest, stm =>
    match handleToolCall tools stm tc with
    | Option.none => Option.none
    | some stm1 => processToolCalls tools rest stm1

/-- The bounded inner loop (`src/agent.py` lines 129-174): up to `fuel`
(= 3 at the call site) model round-trips; each appends the model
response to the transcript and stops when it requests no tool calls. -/
def innerLoop (ai : List Msg → AIMsg) (tools : List ToolDef) :
    Nat → EState → List Msg → Option (EState × List Msg)
  | 0, st, msgs => some (st, msgs)
  | fuel + 1, st, msgs =>
    let m := ai msgs
    let msgs1 := msgs ++ [Msg.ai m]
    if m.tool_calls = [] then some (st, msgs1)
    else
      match processToolCalls tools m.tool_calls (st, msgs1) with
      | Option.none => Option.none
      | some (st1, msgs2) => innerLoop ai tools fuel st1 msgs2

/-- Process one subquestion (`src/agent.py` lines 122-174): log the
plan line, build the transcript whose system framing embeds the
current running summary, and run the inner loop. -/
def processSubq (ai : List Msg → AIMsg) (tools : List ToolDef) (st : EState) (sq : String) :
    Option EState :=
  let st1 : EState := { st with trace := st.trace ++ ["PLAN: " ++ sq] }
  let msgs : List Msg :=
    [Msg.system ("Researcher. Task: " ++ sq ++ "\nEvidence Context: " ++ st1.summary),
     Msg.human sq]
  (innerLoop ai tools 3 st1 msgs).map (fun p => p.1)

/-- Fold over the current plan's subquestions. -/
def execSubqs (ai : List Msg → AIMsg) (tools : List ToolDef) :
    List String → EState → Option EState
  | [], st => some st
  | sq :: rest, st =>
    match processSubq ai tools st sq with
    | Option.none => Option.none
    | some st1 => execSubqs ai tools rest st1

/-- One rendered evidence entry (`src/agent.py` lines 177-181): the
citation tag — `[source, p. N]` when the page is truthy, `[source]`
otherwise — above the chunk content.  `Option.none` models the raise of
`c.get` on a non-dict chunk. -/
def renderEntry (c : PyVal) : Option String :=
  if pyIsDict c then
    let src := dictGetD c "source" (pystr "unknown")
    let pg := dictGetD c "page" pynone
    let tag :=
      if pyTruthy pg then "[" ++ pyStr src ++ ", p. " ++ pyStr pg ++ "]"
      else "[" ++ pyStr src ++ "]"
    some (tag ++ "\n" ++ pyStr (dictGetD c "content" (pystr "")))
  else Option.none

/-- Sequence `renderEntry` over the evidence list. -/
def renderEntries : List PyVal → Option (List String)
  | [] => some []
  | c :: rest =>
    match renderEntry c, renderEntries rest with
    | some h, some t => some (h :: t)
    | _, _ => Option.none

/-- The final `retrieved_text` block (`src/agent.py` line 186):
`"\n\n".join(all_text)`. -/
def renderEvidence (evidence : List PyVal) : Option String :=
  (renderEntries evidence).map (fun items => String.intercalate "\n\n" items)

/-- The dict `executor_node` returns. -/
structure ExecResult where
  tool_trace : List String
  evidence_chunks : List PyVal
  retrieved_text : String
deriving DecidableEq

/-- `executor_node` (`src/agent.py` lines 110-187): build the
`existing_hashes` set and the initial running summary from the incoming
evidence, process every subquestion through the tool-calling loop, and
render the full evidence set into the citation-tagged text block. -/
def executor_node (ai : List Msg → AIMsg) (tools : List ToolDef) (subqs : List String)
    (evidence0 : List PyVal) (trace0 : List String) : Option ExecResult :=
  match hashesInit evidence0 with
  | Option.none => Option.none
  | some hs =>
    match initialSummary evidence0 with
    | Option.none => Option.none
    | some summ =>
      match execSubqs ai tools subqs ⟨evidence0, hs, trace0, summ⟩ with
      | Option.none => Option.none
      | some st =>
        match renderEvidence st.evidence with
        | Option.none => Option.none
        | some txt =>
          some { tool_trace := st.trace, evidence_chunks := st.evidence, retrieved_text := txt }

/-! ### Retry routing (`src/agent.py` lines 224-230) -/

/-- The conditional-edge function `decide`: route to another planning
round exactly when the critic status equals the string `"RETRY"` (a
case-sensitive comparison) and the retry budget remains. -/
def decide (critic_status : PyVal) (retry_count max_retries : Nat) : String :=
  if critic_status = pystr "RETRY" ∧ retry_count < max_retries then "increment_retry"
  else "final"

/-- The `increment_retry` node: `retry_count + 1`. -/
def increment (retry_count : Nat) : Nat := retry_count + 1

/-- Number of planner rounds the graph performs, given the critic
status produced after each round (`critic r` is the status set by the
critic of round `r`, rounds counted from `retry_count = r`).  The
recursion mirrors the cycle `planner → executor → critic → decide →
increment_retry → planner`; its termination proof is exactly the
claim that `decide` lets the loop continue only while
`retry_count < max_retries`. -/
def roundsFrom (critic : Nat → PyVal) (max_retries : Nat) (r : Nat) : Nat :=
  if AgentModel.decide (critic r) r max_retries = "increment_retry" then
    1 + roundsFrom critic max_retries (increment r)
  else 1
termination_by max_retries - r
decreasing_by
  simp only [AgentModel.decide] at *
  split at *
  · simp only [increment]
    omega
  · simp_all

/-- Planning rounds of a whole run (`retry_count` starts absent,
defaulting to 0). -/
def planningRounds (critic : Nat → PyVal) (max_retries : Nat) : Nat :=
  roundsFrom critic max_retries 0

/-! ### `format_citations_from_chunks` (`src/app.py` lines 44-55) -/

/-- Insertion-ordered deduplication by `(source, page)` keeping the
first chunk's content (the `unique_sources` dict). -/
def uniqueSources : List PyVal → List (PyVal × PyVal) → List (PyVal × PyVal)
  | [], acc => acc
  | c :: rest, acc =>
    let key := (dictGetD c "source" pynone, dictGetD c "page" pynone)
    if acc.any (fun kv => kv = key) then uniqueSources rest acc
    else uniqueSources rest (acc ++ [key])

/-- One referenced-sources line: the page is included exactly when it
is truthy. -/
def citationLine (src pg : PyVal) : String :=
  if pyTruthy pg then "- *" ++ pyStr src ++ "* (p. " ++ pyStr pg ++ ")"
  else "- *" ++ pyStr src ++ "*"

/-- `format_citations_from_chunks`: empty input gives the empty string;
otherwise a header line plus one line per distinct `(source, page)` key
(at most 6). -/
def format_citations_from_chunks (chunks : List PyVal) : String :=
  if chunks = [] then ""
  else
    let uniq := uniqueSources chunks []
    let lines := "**Referenced Sources:**" :: (uniq.take 6).map (fun kv => citationLine kv.1 kv.2)
    String.intercalate "\n" lines

/-! ### Concrete fixtures used to evaluate the executor -/

/-- The empty executor state (fresh run: no evidence, no trace). -/
def emptyEState : EState := ⟨[], [], [], ""⟩

/-- A concrete evidence chunk. -/
def exChunk : PyVal :=
  mkDict [("source", pystr "S"), ("page", pyint 1), ("content", pystr "hello")]

/-- A retrieval tool returning one chunk. -/
def searchTool : ToolDef := ⟨"search", fun _ => Except.ok (listToPy [exChunk])⟩

/-- A tool-call record requesting `searchTool`. -/
def exTC : PyVal := mkDict [("name", pystr "search"), ("id", pystr "call1")]

/-- A scripted model oracle: requests one search on the first
round-trip of subquestion `q1`, no tool calls otherwise. -/
def exAI : List Msg → AIMsg := fun msgs =>
  match msgs with
  | [Msg.system _, Msg.human q] =>
    if q = "q1" then { content := "", tool_calls := [exTC] }
    else { content := "done", tool_calls := [] }
  | _ => { content := "done", tool_calls := [] }

/-- The chunk with a known page from the specification's citation
example. -/
def chunkA : PyVal :=
  mkDict [("source", pystr "A"), ("page", pyint 3), ("content", pystr "x")]

/-- The chunk with no page from the specification's citation example. -/
def chunkB : PyVal :=
  mkDict [("source", pystr "B"), ("page", pynone), ("content", pystr "y")]

/-- A tool returning the two citation-example chunks. -/
def dumpTool : ToolDef := ⟨"dump", fun _ => Except.ok (listToPy [chunkA, chunkB])⟩

/-- A tool-call record requesting `dumpTool`. -/
def exTC8 : PyVal := mkDict [("name", pystr "dump"), ("id", pystr "c8")]

/-- A scripted model oracle for the citation-rendering run: one dump
call on the first round-trip, then no tool calls. -/
def ex8AI : List Msg → AIMsg := fun msgs =>
  match msgs with
  | [Msg.system _, Msg.human _] => { content := "", tool_calls := [exTC8] }
  | _ => { content := "", tool_calls := [] }

/-- A chunk whose `page` field is the integer 0 (falsy but present). -/
def chunkPage0 : PyVal :=
  mkDict [("source", pystr "Z"), ("page", pyint 0), ("content", pystr "zero")]

/-- Count of model responses in a transcript (each inner-loop
round-trip appends exactly one `Msg.ai`). -/
def countAI (msgs : List Msg) : Nat :=
  (msgs.filter (fun m => match m with | Msg.ai _ => true | _ => false)).length

/-- The executor's deduplication invariant: the `existing_hashes` list
records exactly the fingerprints of the accumulated evidence, in
order, and holds no duplicates (hence no two evidence entries share a
fingerprint). -/
def EInv (st : EState) : Prop :=
  st.evidence.map compute_chunk_hash = st.hashes.map some ∧ st.hashes.Nodup

/-- The two whitespace-variant chunks of the specification's
normalization example. -/
def cWs1 : PyVal :=
  mkDict [("source", pystr "s"), ("page", pyint 1), ("content", pystr "a  b")]

/-- Same source and page as `cWs1`, content differing only in
whitespace. -/
def cWs2 : PyVal :=
  mkDict [("source", pystr "s"), ("page", pyint 1), ("content", pystr "a b")]

/-- The same identity triple as `cWs1` but with an extra key and a
different key order: an equal fingerprint. -/
def cWs1b : PyVal :=
  mkDict [("note", pystr "dup"), ("content", pystr "a  b"), ("page", pyint 1),
    ("source", pystr "s")]

end AgentModel

namespace AgentModel

open PyVal

/-! ## Invariant preservation through the evidence accumulator -/

/-- The dedup invariant ignores the trace and the summary. -/
theorem EInv_parts (st : EState) (t : List String) (s : String) :
    EInv { st with trace := t, summary := s } ↔ EInv st := Iff.rfl

/-- The merge loop preserves the dedup invariant. -/
theorem merge_EInv (l : List PyVal) : ∀ st : EState, EInv st → EInv (mergeChunksE st l).1 := by
  induction l with
  | nil => intro st h; exact h
  | cons c rest ih =>
    intro st h
    simp only [mergeChunksE]
    cases hh : compute_chunk_hash c with
    | none => exact h
    | some hsh =>
      by_cases hmem : hsh ∈ st.hashes
      · simp only [hmem, if_true]
        exact ih st h
      · simp only [hmem, if_false]
        have h1 : EInv { st with evidence := st.evidence ++ [c], hashes := st.hashes ++ [hsh] } := by
          constructor
          · simp only [List.map_append, List.map_cons, List.map_nil, h.1, hh]
          · simp only [List.nodup_append, List.nodup_cons, List.nodup_nil]
            refine ⟨h.2, by simp, ?_⟩
            simp only [List.disjoint_singleton]
            exact hmem
        cases hp : previewItem c with
        | none => exact h1
        | some p => exact ih _ h1

/-- Skipping: merging any number of copies of a chunk whose fingerprint
is already recorded leaves the state unchanged. -/
theorem merge_skip_all (c : PyVal) (h : String) (hc : compute_chunk_hash c = some h) :
    ∀ (n : Nat) (st : EState), h ∈ st.hashes →
      mergeChunksE st (List.replicate n c) = (st, Option.none) := by
  intro n
  induction n with
  | zero => intro st _; rfl
  | succ m ih =>
    intro st hmem
    simp only [List.replicate_succ, mergeChunksE, hc, hmem, if_true]
    exact ih st hmem

/-- Ingestion preserves the dedup invariant. -/
theorem ingest_EInv (st : EState) (t raw : PyVal) (h : EInv st) :
    EInv (ingest_tool_output st t raw).1 := by
  rw [ingest_tool_output]
  cases hc : ingestCase raw with
  | chunkList l =>
    have hm := merge_EInv l st h
    rcases hmerge : mergeChunksE st l with ⟨st1, e⟩
    rw [hmerge] at hm
    simp only [hmerge]
    cases e with
    | none => exact hm
    | some msg => exact hm
  | nonList => exact h
  | badJson => exact h

/-- Dispatching one tool call preserves the dedup invariant. -/
theorem handleToolCall_EInv (tools : List ToolDef) (st : EState) (msgs : List Msg)
    (tc : PyVal) (st' : EState) (msgs' : List Msg) (h : EInv st)
    (heq : handleToolCall tools (st, msgs) tc = some (st', msgs')) : EInv st' := by
  unfold handleToolCall at heq
  by_cases hdict : pyIsDict tc
  · simp only [hdict, if_true] at heq
    split at heq
    · injection heq with hp
      cases hp
      exact h
    · split at heq
      · injection heq with hp
        cases hp
        exact h
      · split at heq
        · injection heq with hp
          cases hp
          exact h
        · rename_i tool raw hok
          split at heq
          · rename_i st1 hing
            injection heq with hp
            cases hp
            have hi := ingest_EInv
              { st with trace := st.trace ++ ["TOOL: " ++ pyStr (dictGetD tc "name" PyVal.pynone)] }
              (dictGetD tc "name" PyVal.pynone) raw h
            rw [hing] at hi
            exact hi
          · rename_i st1 out hing
            injection heq with hp
            cases hp
            have hi := ingest_EInv
              { st with trace := st.trace ++ ["TOOL: " ++ pyStr (dictGetD tc "name" PyVal.pynone)] }
              (dictGetD tc "name" PyVal.pynone) raw h
            rw [hing] at hi
            exact hi
  · simp only [hdict, if_false] at heq
    exact absurd heq (by simp)

/-- Processing a response's tool calls preserves the dedup invariant. -/
theorem processToolCalls_EInv (tools : List ToolDef) :
    ∀ (tcs : List PyVal) (st : EState) (msgs : List Msg) (st' : EState) (msgs' : List Msg),
      EInv st → processToolCalls tools tcs (st, msgs) = some (st', msgs') → EInv st' := by
  intro tcs
  induction tcs with
  | nil =>
    intro st msgs st' msgs' h heq
    simp only [processToolCalls] at heq
    injection heq with hp
    cases hp
    exact h
  | cons tc rest ih =>
    intro st msgs st' msgs' h heq
    simp only [processToolCalls] at heq
    cases hh : handleToolCall tools (st, msgs) tc with
    | none => rw [hh] at heq; exact absurd heq (by simp)
    | some stm1 =>
      rw [hh] at heq
      exact ih stm1.1 stm1.2 st' msgs'
        (handleToolCall_EInv tools st msgs tc stm1.1 stm1.2 h (by rw [hh])) heq

/-- The inner tool loop preserves the dedup invariant. -/
theorem innerLoop_EInv (ai : List Msg → AIMsg) (tools : List ToolDef) :
    ∀ (fuel : Nat) (st : EState) (msgs : List Msg) (st' : EState) (msgs' : List Msg),
      EInv st → innerLoop ai tools fuel st msgs = some (st', msgs') → EInv st' := by
  intro fuel
  induction fuel with
  | zero =>
    intro st msgs st' msgs' h heq
    simp only [innerLoop] at heq
    injection heq with hp
    cases hp
    exact h
  | succ n ih =>
    intro st msgs st' msgs' h heq
    simp only [innerLoop] at heq
    split at heq
    · injection heq with hp
      cases hp
      exact h
    · split at heq
      · exact absurd heq (by simp)
      · rename_i st1 msgs1 hp
        exact ih st1 msgs1 st' msgs'
          (processToolCalls_EInv tools _ st _ st1 msgs1 h hp) heq

/-- Processing one subquestion preserves the dedup invariant. -/
theorem processSubq_EInv (ai : List Msg → AIMsg) (tools : List ToolDef) (st : EState)
    (sq : String) (st' : EState) (h : EInv st)
    (heq : processSubq ai tools st sq = some st') : EInv st' := by
  simp only [processSubq, Option.map_eq_some'] at heq
  obtain ⟨⟨st1, msgs1⟩, hloop, hfst⟩ := heq
  cases hfst
  exact innerLoop_EInv ai tools 3
    { st with trace := st.trace ++ ["PLAN: " ++ sq] } _ st1 msgs1 h hloop

/-- The fold over all subquestions preserves the dedup invariant. -/
theorem execSubqs_EInv (ai : List Msg → AIMsg) (tools : List ToolDef) :
    ∀ (subqs : List String) (st : EState) (st' : EState),
      EInv st → execSubqs ai tools subqs st = some st' → EInv st' := by
  intro subqs
  induction subqs with
  | nil =>
    intro st st' h heq
    simp only [execSubqs] at heq
    injection heq with hp
    cases hp
    exact h
  | cons sq rest ih =>
    intro st st' h heq
    simp only [execSubqs] at heq
    cases hh : processSubq ai tools st sq with
    | none => rw [hh] at heq; exact absurd heq (by simp)
    | some st1 =>
      rw [hh] at heq
      exact ih st1 st' (processSubq_EInv ai tools st sq st1 h hh) heq

/-- `hashesInit` reproduces the fingerprint image of the evidence. -/
theorem hashesInit_map :
    ∀ (ev : List PyVal) (hs : List String), hashesInit ev = some hs →
      ev.map compute_chunk_hash = hs.map some := by
  intro ev
  induction ev with
  | nil =>
    intro hs heq
    simp only [hashesInit] at heq
    injection heq with hp
    cases hp
    rfl
  | cons c rest ih =>
    intro hs heq
    simp only [hashesInit] at heq
    cases hc : compute_chunk_hash c with
    | none => rw [hc] at heq; exact absurd heq (by simp)
    | some h0 =>
      rw [hc] at heq
      cases hrest : hashesInit rest with
      | none => rw [hrest] at heq; exact absurd heq (by simp)
      | some t =>
        rw [hrest] at heq
        injection heq with hp
        cases hp
        simp only [List.map_cons, hc, ih t hrest]

/-- Merging `n ≥ 1` copies of a fresh, well-formed chunk into the empty
accumulator yields exactly one entry. -/
theorem merge_replicate (c : PyVal) (n : Nat) (h1 : (compute_chunk_hash c).isSome)
    (h2 : (previewItem c).isSome) (hn : 1 ≤ n) :
    (mergeChunksE emptyEState (List.replicate n c)).1.evidence = [c] := by
  obtain ⟨hsh, hc⟩ := Option.isSome_iff_exists.mp h1
  obtain ⟨p, hp⟩ := Option.isSome_iff_exists.mp h2
  obtain ⟨m, rfl⟩ : ∃ m, n = m + 1 := ⟨n - 1, by omega⟩
  rw [List.replicate_succ]
  simp only [mergeChunksE, hc, hp, emptyEState]
  simp only [List.not_mem_nil, if_false, List.nil_append]
  rw [merge_skip_all c hsh hc m _ (by simp)]

/-- C1.  At every point during a run the evidence accumulator holds no
two entries with equal fingerprint: any executor invocation whose
incoming evidence has pairwise-distinct fingerprints returns evidence
with pairwise-distinct fingerprints (for every model oracle, tool set
and plan), and submitting the same chunk any number of times to the
accumulator results in exactly one entry. -/
theorem c1_evidence_dedup :
    (∀ (ai : List Msg → AIMsg) (tools : List ToolDef) (subqs : List String)
        (ev0 : List PyVal) (tr0 : List String) (res : ExecResult),
        (ev0.map compute_chunk_hash).Nodup →
        executor_node ai tools subqs ev0 tr0 = some res →
        (res.evidence_chunks.map compute_chunk_hash).Nodup)
    ∧ (∀ (c : PyVal) (n : Nat), (compute_chunk_hash c).isSome → (previewItem c).isSome →
        1 ≤ n → (mergeChunksE emptyEState (List.replicate n c)).1.evidence = [c]) := by
  constructor
  · intro ai tools subqs ev0 tr0 res hnd heq
    unfold executor_node at heq
    cases hh : hashesInit ev0 with
    | none => rw [hh] at heq; exact absurd heq (by simp)
    | some hs =>
      rw [hh] at heq
      dsimp only at heq
      cases hsum : initialSummary ev0 with
      | none => rw [hsum] at heq; exact absurd heq (by simp)
      | some summ =>
        rw [hsum] at heq
        dsimp only at heq
        cases hex : execSubqs ai tools subqs ⟨ev0, hs, tr0, summ⟩ with
        | none => rw [hex] at heq; exact absurd heq (by simp)
        | some st =>
          rw [hex] at heq
          dsimp only at heq
          cases hr : renderEvidence st.evidence with
          | none => rw [hr] at heq; exact absurd heq (by simp)
          | some txt =>
            rw [hr] at heq
            dsimp only at heq
            injection heq with hres
            cases hres
            have hmap := hashesInit_map ev0 hs hh
            have hinv0 : EInv ⟨ev0, hs, tr0, summ⟩ := by
              refine ⟨hmap, ?_⟩
              have hnd2 : (hs.map some).Nodup := hmap ▸ hnd
              exact hnd2.of_map
            have hinv := execSubqs_EInv ai tools subqs _ st hinv0 hex
            have : (st.evidence.map compute_chunk_hash).Nodup := by
              rw [hinv.1]
              exact hinv.2.map (Option.some_injective _)
            exact this
  · exact merge_replicate

/-- Closed witness for `c1_evidence_dedup`: a concrete executor run
over a scripted oracle and tool, and a concrete triple submission. -/
theorem c1_evidence_dedup_witness :
    ((([] : List PyVal).map compute_chunk_hash).Nodup ∧
      (((executor_node exAI [searchTool] ["q1", "q2"] [] []).getD
        ⟨[], [], ""⟩).evidence_chunks.map compute_chunk_hash).Nodup) ∧
    ((compute_chunk_hash exChunk).isSome ∧ (previewItem exChunk).isSome ∧
      (mergeChunksE emptyEState (List.replicate 3 exChunk)).1.evidence = [exChunk]) := by
  refine ⟨⟨by decide, ?_⟩, by decide, by decide, ?_⟩
  · exact c1_evidence_dedup.1 exAI [searchTool] ["q1", "q2"] [] [] _ (by decide) rfl
  · exact c1_evidence_dedup.2 exChunk 3 (by decide) (by decide) (by decide)

/-- Counterexample to C3: the fingerprint applies no whitespace
normalization, so contents `"a  b"` and `"a b"` (same source, same
page) produce different fingerprints, and both chunks are retained by
the accumulator instead of deduplicating to one entry. -/
theorem c3_whitespace_counterexample :
    compute_chunk_hash cWs1 ≠ compute_chunk_hash cWs2 ∧
    (mergeChunksE emptyEState [cWs1, cWs2]).1.evidence = [cWs1, cWs2] := by
  exact ⟨by decide, by decide⟩

/-- C3 as amended: the fingerprint is a pure deterministic function of
exactly the raw `(source, page, content)` fields — independent of key
order and extra keys — so two chunks agreeing on those three raw values
receive equal fingerprints and deduplicate to a single entry (no
whitespace normalization is applied). -/
theorem c3_fingerprint_pure :
    (∀ c c' : PyVal, pyIsDict c = true → pyIsDict c' = true →
      dictGetD c "source" PyVal.pynone = dictGetD c' "source" PyVal.pynone →
      dictGetD c "page" PyVal.pynone = dictGetD c' "page" PyVal.pynone →
      dictGetD c "content" PyVal.pynone = dictGetD c' "content" PyVal.pynone →
      compute_chunk_hash c = compute_chunk_hash c')
    ∧ (∀ (c c' : PyVal) (h : String), compute_chunk_hash c = some h →
        compute_chunk_hash c' = some h → (previewItem c).isSome →
        (mergeChunksE emptyEState [c, c']).1.evidence = [c]) := by
  constructor
  · intro c c' h1 h2 hs hp hc
    simp only [compute_chunk_hash, h1, h2, if_true, hs, hp, hc]
  · intro c c' h hc hc' hprev
    obtain ⟨p, hp⟩ := Option.isSome_iff_exists.mp hprev
    simp only [mergeChunksE, hc, hc', hp, emptyEState]
    simp only [List.not_mem_nil, if_false, List.nil_append, List.mem_singleton, if_true]

/-- Closed witness for `c3_fingerprint_pure`: uses `cWs1` and the
reordered, extra-keyed `cWs1b`, which share the identity triple. -/
theorem c3_fingerprint_pure_witness :
    compute_chunk_hash cWs1 = compute_chunk_hash cWs1b ∧
    (mergeChunksE emptyEState [cWs1, cWs1b]).1.evidence = [cWs1] := by
  constructor
  · exact c3_fingerprint_pure.1 cWs1 cWs1b (by decide) (by decide) (by decide) (by decide)
      (by decide)
  · exact c3_fingerprint_pure.2 cWs1 cWs1b ((compute_chunk_hash cWs1).getD "")
      (by decide) (by decide) (by decide)

/-! ## Termination bounds (C2) -/

/-- The retry loop performs at most `n + 1` rounds once
`max_retries ≤ r + n`. -/
theorem roundsFrom_le (critic : Nat → PyVal) (max_retries : Nat) :
    ∀ (n r : Nat), max_retries ≤ r + n → roundsFrom critic max_retries r ≤ n + 1 := by
  intro n
  induction n with
  | zero =>
    intro r hr
    rw [roundsFrom]
    have hne : AgentModel.decide (critic r) r max_retries ≠ "increment_retry" := by
      simp only [AgentModel.decide]
      split
      · rename_i hcond
        exact absurd hcond.2 (by omega)
      · simp
    simp [hne]
  | succ n ih =>
    intro r hr
    rw [roundsFrom]
    split
    · have hih := ih (r + 1) (by omega)
      simp only [increment]
      omega
    · omega

/-- With a critic that always returns RETRY the loop runs for exactly
`n + 1` rounds when `max_retries = r + n`. -/
theorem roundsFrom_retry (critic : Nat → PyVal) (hret : ∀ r, critic r = pystr "RETRY")
    (max_retries : Nat) : ∀ (n r : Nat), max_retries = r + n →
      roundsFrom critic max_retries r = n + 1 := by
  intro n
  induction n with
  | zero =>
    intro r hr
    rw [roundsFrom]
    have hne : AgentModel.decide (critic r) r max_retries ≠ "increment_retry" := by
      simp only [AgentModel.decide]
      split
      · rename_i hcond
        exact absurd hcond.2 (by omega)
      · simp
    simp [hne]
  | succ n ih =>
    intro r hr
    rw [roundsFrom]
    have hlt : r < max_retries := by omega
    have hcond : AgentModel.decide (critic r) r max_retries = "increment_retry" := by
      simp [AgentModel.decide, hret r, hlt]
    simp only [hcond, if_true, increment, ih (r + 1) (by omega)]
    omega

/-- `countAI` distributes over transcript concatenation. -/
theorem countAI_append (a b : List Msg) : countAI (a ++ b) = countAI a + countAI b := by
  simp [countAI, List.filter_append]

/-- Appending a tool message does not change the model-response
count. -/
theorem countAI_tool (msgs : List Msg) (content : String) (tid : PyVal) :
    countAI (msgs ++ [Msg.tool content tid]) = countAI msgs := by
  simp [countAI_append, countAI, List.filter]

/-- Appending a model response raises the model-response count by 1. -/
theorem countAI_ai (msgs : List Msg) (m : AIMsg) :
    countAI (msgs ++ [Msg.ai m]) = countAI msgs + 1 := by
  simp [countAI_append, countAI, List.filter]

/-- Dispatching a single tool call never adds a model response to the
transcript. -/
theorem handleToolCall_countAI (tools : List ToolDef) (st : EState) (msgs : List Msg)
    (tc : PyVal) (st' : EState) (msgs' : List Msg)
    (heq : handleToolCall tools (st, msgs) tc = some (st', msgs')) :
    countAI msgs' = countAI msgs := by
  unfold handleToolCall at heq
  by_cases hdict : pyIsDict tc
  · simp only [hdict, if_true] at heq
    split at heq
    · injection heq with hp
      cases hp
      rfl
    · split at heq
      · injection heq with hp
        cases hp
        exact countAI_tool msgs _ _
      · split at heq
        · injection heq with hp
          cases hp
          exact countAI_tool msgs _ _
        · split at heq
          · injection heq with hp
            cases hp
            exact countAI_tool msgs _ _
          · injection heq with hp
            cases hp
            exact countAI_tool msgs _ _
  · simp only [hdict, if_false] at heq
    exact absurd heq (by simp)

/-- Processing any batch of tool calls leaves the model-response count
unchanged. -/
theorem processToolCalls_countAI (tools : List ToolDef) :
    ∀ (tcs : List PyVal) (st : EState) (msgs : List Msg) (st' : EState) (msgs' : List Msg),
      processToolCalls tools tcs (st, msgs) = some (st', msgs') →
      countAI msgs' = countAI msgs := by
  intro tcs
  induction tcs with
  | nil =>
    intro st msgs st' msgs' heq
    simp only [processToolCalls] at heq
    injection heq with hp
    cases hp
    rfl
  | cons tc rest ih =>
    intro st msgs st' msgs' heq
    simp only [processToolCalls] at heq
    cases hh : handleToolCall tools (st, msgs) tc with
    | none => rw [hh] at heq; exact absurd heq (by simp)
    | some stm1 =>
      rw [hh] at heq
      rw [ih stm1.1 stm1.2 st' msgs' heq]
      exact handleToolCall_countAI tools st msgs tc stm1.1 stm1.2 (by rw [hh])

/-- The inner loop performs at most `fuel` model round-trips. -/
theorem innerLoop_countAI (ai : List Msg → AIMsg) (tools : List ToolDef) :
    ∀ (fuel : Nat) (st : EState) (msgs : List Msg) (out : EState × List Msg),
      innerLoop ai tools fuel st msgs = some out →
      countAI out.2 ≤ countAI msgs + fuel := by
  intro fuel
  induction fuel with
  | zero =>
    intro st msgs out heq
    simp only [innerLoop] at heq
    injection heq with hp
    cases hp
    simp
  | succ n ih =>
    intro st msgs out heq
    simp only [innerLoop] at heq
    split at heq
    · injection heq with hp
      cases hp
      simp [countAI_ai]
    · split at heq
      · exact absurd heq (by simp)
      · rename_i st1 msgs1 hp
        have h1 := processToolCalls_countAI tools _ st _ st1 msgs1 hp
        have h2 := ih st1 msgs1 out heq
        rw [h1, countAI_ai] at h2
        omega

/-- A model response with no tool calls stops the inner loop after a
single round-trip. -/
theorem innerLoop_stop (ai : List Msg → AIMsg) (tools : List ToolDef) (fuel : Nat)
    (st : EState) (msgs : List Msg) (h : (ai msgs).tool_calls = []) :
    innerLoop ai tools (fuel + 1) st msgs = some (st, msgs ++ [Msg.ai (ai msgs)]) := by
  simp [innerLoop, h]

/-- C2.  For any configured `max_retries = N` a run performs at most
`N + 1` planning rounds; each retry increments the counter by exactly
1; the executor's tool loop performs at most 3 model round-trips per
subquestion and stops after one round-trip when the model requests no
tool calls; and a critic that always returns RETRY still yields exactly
`N + 1` rounds. -/
theorem c2_termination :
    (∀ (critic : Nat → PyVal) (max_retries : Nat),
        planningRounds critic max_retries ≤ max_retries + 1)
    ∧ (∀ (critic : Nat → PyVal) (max_retries : Nat),
        (∀ r, critic r = pystr "RETRY") →
        planningRounds critic max_retries = max_retries + 1)
    ∧ (∀ rc : Nat, increment rc = rc + 1)
    ∧ (∀ (ai : List Msg → AIMsg) (tools : List ToolDef) (st : EState) (msgs : List Msg)
        (out : EState × List Msg), innerLoop ai tools 3 st msgs = some out →
        countAI out.2 ≤ countAI msgs + 3)
    ∧ (∀ (ai : List Msg → AIMsg) (tools : List ToolDef) (fuel : Nat) (st : EState)
        (msgs : List Msg), (ai msgs).tool_calls = [] →
        innerLoop ai tools (fuel + 1) st msgs = some (st, msgs ++ [Msg.ai (ai msgs)])) := by
  refine ⟨?_, ?_, fun rc => rfl, ?_, ?_⟩
  · intro critic max_retries
    exact roundsFrom_le critic max_retries max_retries 0 (by omega)
  · intro critic max_retries hret
    exact roundsFrom_retry critic hret max_retries max_retries 0 (by omega)
  · intro ai tools st msgs out heq
    exact innerLoop_countAI ai tools 3 st msgs out heq
  · intro ai tools fuel st msgs h
    exact innerLoop_stop ai tools fuel st msgs h

/-- Closed witness for `c2_termination`: the always-RETRY critic with
budget 2 terminates in exactly 3 rounds, and a concrete inner-loop run
obeys the round-trip bound and the early stop. -/
theorem c2_termination_witness :
    planningRounds (fun _ => pystr "RETRY") 2 ≤ 3 ∧
    planningRounds (fun _ => pystr "RETRY") 2 = 3 ∧
    increment 1 = 2 ∧
    countAI ((innerLoop exAI [searchTool] 3 emptyEState
        [Msg.system "s", Msg.human "q1"]).getD (emptyEState, [])).2 ≤
      countAI [Msg.system "s", Msg.human "q1"] + 3 ∧
    innerLoop ex8AI [] (0 + 1) emptyEState [] =
      some (emptyEState, [] ++ [Msg.ai (ex8AI [])]) := by
  refine ⟨c2_termination.1 (fun _ => pystr "RETRY") 2,
    c2_termination.2.1 (fun _ => pystr "RETRY") 2 (fun r => rfl),
    c2_termination.2.2.1 1,
    c2_termination.2.2.2.1 exAI [searchTool] emptyEState [Msg.system "s", Msg.human "q1"] _ rfl,
    c2_termination.2.2.2.2 ex8AI [] 0 emptyEState [] rfl⟩

/-! ## Planner fallback (C4) -/

/-- C4.  Planner output that does not parse (after stripping fence
decoration) into a non-empty list of non-blank strings — for example
prose or the empty string — yields the plan `[original query]`; a
properly fenced list parses normally. -/
theorem c4_planner_fallback :
    parse_json_list "Sure, here is a plan." = [] ∧
    parse_json_list "" = [] ∧
    parse_json_list "```json\n[\"risks of X\"]\n```" = ["risks of X"] ∧
    (∀ (text q : String), parse_json_list text = [] → planner_subquestions text q = [q]) := by
  refine ⟨by decide, by decide, by decide, ?_⟩
  intro text q h
  simp [planner_subquestions, h]

/-- Closed witness for `c4_planner_fallback` at a prose plan. -/
theorem c4_planner_fallback_witness :
    parse_json_list "Sure, here is a plan." = [] ∧
    planner_subquestions "Sure, here is a plan." "What are the risks of X?" =
      ["What are the risks of X?"] := by
  constructor
  · decide
  · exact c4_planner_fallback.2.2.2 "Sure, here is a plan." "What are the risks of X?"
      (by decide)

/-! ## Critic parsing (C5) -/

/-- C5 is a code bug: the layered parse does fall back through strict
JSON, literal parse and the keyword heuristic, but when the strict
parse succeeds on a non-mapping (the model output `"42"` is valid JSON
for the integer 42) `_parse_critic_output` returns that non-mapping,
and `critic_node`'s `decision.get("status", "OK")` raises
`AttributeError`, crashing the run — contradicting both the claim and
the function's own `Dict[str, str]` annotation.  The last two conjuncts
record the heuristic working as claimed when it is reached. -/
theorem c5_critic_crash :
    parse_critic_output "42" = pyint 42 ∧
    critic_node_update "42" = Option.none ∧
    parse_critic_output "We should RETRY with broader queries." =
      mkDict [("status", pystr "RETRY"),
        ("notes", pystr "We should RETRY with broader queries.")] ∧
    critic_node_update "Evidence is sufficient." =
      some (pystr "OK", pystr "Evidence is sufficient.") := by
  exact ⟨by decide, by decide, by decide, by decide⟩

/-! ## Tool-output ingestion (C6) -/

/-- The merge loop never touches the trace. -/
theorem merge_trace (l : List PyVal) : ∀ st : EState, (mergeChunksE st l).1.trace = st.trace := by
  induction l with
  | nil => intro st; rfl
  | cons c rest ih =>
    intro st
    simp only [mergeChunksE]
    cases hh : compute_chunk_hash c with
    | none => rfl
    | some hsh =>
      by_cases hmem : hsh ∈ st.hashes
      · simp only [hmem, if_true]
        exact ih st
      · simp only [hmem, if_false]
        cases hp : previewItem c with
        | none => rfl
        | some p => exact ih _

/-- C6.  A tool result that is a JSON-string-encoded list is ingested
exactly like the raw list; valid JSON that is not a list only appends
the non-list warning to the trace; invalid JSON only appends the
not-valid-JSON warning; and ingestion always returns a state extending
the previous trace (it never raises out of the executor). -/
theorem c6_tool_output_ingestion :
    (∀ (st : EState) (t : PyVal) (s : String) (v : PyVal),
        jsonParse s = some v → pyIsList v = true →
        ingest_tool_output st t (pystr s) = ingest_tool_output st t v)
    ∧ (∀ (st : EState) (t : PyVal) (s : String) (v : PyVal),
        jsonParse s = some v → pyIsList v = false →
        ingest_tool_output st t (pystr s) =
          ({ st with trace := st.trace ++ ["WARN: Tool " ++ pyStr t ++ " returned non-list data"] },
            Option.none))
    ∧ (∀ (st : EState) (t : PyVal) (s : String),
        jsonParse s = Option.none →
        ingest_tool_output st t (pystr s) =
          ({ st with trace := st.trace ++ ["WARN: Tool " ++ pyStr t ++ " output was not valid JSON"] },
            Option.none))
    ∧ (∀ (st : EState) (t raw : PyVal),
        st.trace <+: (ingest_tool_output st t raw).1.trace) := by
  refine ⟨?_, ?_, ?_, ?_⟩
  · intro st t s v hj hl
    have hps : pyIsList (pystr s) = false := rfl
    have h1 : ingestCase (pystr s) = IngestCase.chunkList (pyToListD v) := by
      simp [ingestCase, hps, pyStr, hj, hl]
    have h2 : ingestCase v = IngestCase.chunkList (pyToListD v) := by
      simp [ingestCase, hl]
    rw [ingest_tool_output, ingest_tool_output, h1, h2]
  · intro st t s v hj hl
    have hps : pyIsList (pystr s) = false := rfl
    have h1 : ingestCase (pystr s) = IngestCase.nonList := by
      simp [ingestCase, hps, pyStr, hj, hl]
    rw [ingest_tool_output, h1]
  · intro st t s hj
    have hps : pyIsList (pystr s) = false := rfl
    have h1 : ingestCase (pystr s) = IngestCase.badJson := by
      simp [ingestCase, hps, pyStr, hj]
    rw [ingest_tool_output, h1]
  · intro st t raw
    rw [ingest_tool_output]
    cases hc : ingestCase raw with
    | chunkList l =>
      rcases hmerge : mergeChunksE st l with ⟨st1, e⟩
      have htr : st1.trace = st.trace := by
        have := merge_trace l st
        rw [hmerge] at this
        exact this
      simp only [hmerge]
      cases e with
      | none => simp [htr]
      | some msg =>
        simp only [htr.symm]
        exact List.prefix_append st1.trace _
    | nonList => exact List.prefix_append st.trace _
    | badJson => exact List.prefix_append st.trace _

/-- Closed witness for `c6_tool_output_ingestion` at concrete tool
outputs. -/
theorem c6_tool_output_ingestion_witness :
    ingest_tool_output emptyEState (pystr "t") (pystr "[]") =
      ingest_tool_output emptyEState (pystr "t") pynil ∧
    ingest_tool_output emptyEState (pystr "t") (pystr "42") =
      ({ emptyEState with
          trace := emptyEState.trace ++ ["WARN: Tool t returned non-list data"] },
        Option.none) ∧
    ingest_tool_output emptyEState (pystr "t") (pystr "not json") =
      ({ emptyEState with
          trace := emptyEState.trace ++ ["WARN: Tool t output was not valid JSON"] },
        Option.none) ∧
    emptyEState.trace <+: (ingest_tool_output emptyEState (pystr "t") (pystr "[1]")).1.trace := by
  refine ⟨c6_tool_output_ingestion.1 emptyEState (pystr "t") "[]" pynil (by decide) (by decide),
    ?_, ?_,
    c6_tool_output_ingestion.2.2.2 emptyEState (pystr "t") (pystr "[1]")⟩
  · exact c6_tool_output_ingestion.2.1 emptyEState (pystr "t") "42" (pyint 42)
      (by decide) (by decide)
  · exact c6_tool_output_ingestion.2.2.1 emptyEState (pystr "t") "not json" (by decide)

/-! ## The running summary (C7) -/

/-- The merge loop only ever appends to the running summary. -/
theorem merge_summary_ext (l : List PyVal) :
    ∀ st : EState, ∃ suffix, (mergeChunksE st l).1.summary = st.summary ++ suffix := by
  induction l with
  | nil => intro st; exact ⟨"", (String.append_empty _).symm⟩
  | cons c rest ih =>
    intro st
    simp only [mergeChunksE]
    cases hh : compute_chunk_hash c with
    | none => exact ⟨"", (String.append_empty _).symm⟩
    | some hsh =>
      by_cases hmem : hsh ∈ st.hashes
      · simp only [hmem, if_true]
        exact ih st
      · simp only [hmem, if_false]
        cases hp : previewItem c with
        | none => exact ⟨"", (String.append_empty _).symm⟩
        | some p =>
          obtain ⟨suf, hsuf⟩ :=
            ih ⟨st.evidence ++ [c], st.hashes ++ [hsh], st.trace, st.summary ++ p⟩
          refine ⟨p ++ suf, ?_⟩
          rw [hsuf]
          exact String.append_assoc _ _ _

/-- Ingestion only ever appends to the running summary. -/
theorem ingest_summary_ext (st : EState) (t raw : PyVal) :
    ∃ suffix, (ingest_tool_output st t raw).1.summary = st.summary ++ suffix := by
  rw [ingest_tool_output]
  cases hc : ingestCase raw with
  | chunkList l =>
    obtain ⟨suf, hsuf⟩ := merge_summary_ext l st
    rcases hmerge : mergeChunksE st l with ⟨st1, e⟩
    rw [hmerge] at hsuf
    simp only [hmerge]
    cases e with
    | none => exact ⟨suf, hsuf⟩
    | some msg => exact ⟨suf, hsuf⟩
  | nonList => exact ⟨"", (String.append_empty _).symm⟩
  | badJson => exact ⟨"", (String.append_empty _).symm⟩

/-- Dispatching one tool call only ever appends to the summary. -/
theorem handleToolCall_summary_ext (tools : List ToolDef) (st : EState) (msgs : List Msg)
    (tc : PyVal) (st' : EState) (msgs' : List Msg)
    (heq : handleToolCall tools (st, msgs) tc = some (st', msgs')) :
    ∃ suffix, st'.summary = st.summary ++ suffix := by
  unfold handleToolCall at heq
  by_cases hdict : pyIsDict tc
  · simp only [hdict, if_true] at heq
    split at heq
    · injection heq with hp
      cases hp
      exact ⟨"", (String.append_empty _).symm⟩
    · split at heq
      · injection heq with hp
        cases hp
        exact ⟨"", (String.append_empty _).symm⟩
      · split at heq
        · injection heq with hp
          cases hp
          exact ⟨"", (String.append_empty _).symm⟩
        · rename_i tool raw hok
          split at heq
          · rename_i st1 hing
            injection heq with hp
            cases hp
            have hi := ingest_summary_ext
              { st with trace := st.trace ++ ["TOOL: " ++ pyStr (dictGetD tc "name" PyVal.pynone)] }
              (dictGetD tc "name" PyVal.pynone) raw
            rw [hing] at hi
            exact hi
          · rename_i st1 out hing
            injection heq with hp
            cases hp
            have hi := ingest_summary_ext
              { st with trace := st.trace ++ ["TOOL: " ++ pyStr (dictGetD tc "name" PyVal.pynone)] }
              (dictGetD tc "name" PyVal.pynone) raw
            rw [hing] at hi
            exact hi
  · simp only [hdict, if_false] at heq
    exact absurd heq (by simp)

/-- A batch of tool calls only ever appends to the summary. -/
theorem processToolCalls_summary_ext (tools : List ToolDef) :
    ∀ (tcs : List PyVal) (st : EState) (msgs : List Msg) (st' : EState) (msgs' : List Msg),
      processToolCalls tools tcs (st, msgs) = some (st', msgs') →
      ∃ suffix, st'.summary = st.summary ++ suffix := by
  intro tcs
  induction tcs with
  | nil =>
    intro st msgs st' msgs' heq
    simp only [processToolCalls] at heq
    injection heq with hp
    cases hp
    exact ⟨"", (String.append_empty _).symm⟩
  | cons tc rest ih =>
    intro st msgs st' msgs' heq
    simp only [processToolCalls] at heq
    cases hh : handleToolCall tools (st, msgs) tc with
    | none => rw [hh] at heq; exact absurd heq (by simp)
    | some stm1 =>
      rw [hh] at heq
      obtain ⟨s1, h1⟩ := handleToolCall_summary_ext tools st msgs tc stm1.1 stm1.2 (by rw [hh])
      obtain ⟨s2, h2⟩ := ih stm1.1 stm1.2 st' msgs' heq
      exact ⟨s1 ++ s2, by rw [h2, h1]; exact String.append_assoc _ _ _⟩

/-- The inner loop only ever appends to the summary. -/
theorem innerLoop_summary_ext (ai : List Msg → AIMsg) (tools : List ToolDef) :
    ∀ (fuel : Nat) (st : EState) (msgs : List Msg) (st' : EState) (msgs' : List Msg),
      innerLoop ai tools fuel st msgs = some (st', msgs') →
      ∃ suffix, st'.summary = st.summary ++ suffix := by
  intro fuel
  induction fuel with
  | zero =>
    intro st msgs st' msgs' heq
    simp only [innerLoop] at heq
    injection heq with hp
    cases hp
    exact ⟨"", (String.append_empty _).symm⟩
  | succ n ih =>
    intro st msgs st' msgs' heq
    simp only [innerLoop] at heq
    split at heq
    · injection heq with hp
      cases hp
      exact ⟨"", (String.append_empty _).symm⟩
    · split at heq
      · exact absurd heq (by simp)
      · rename_i st1 msgs1 hp
        obtain ⟨s1, h1⟩ := processToolCalls_summary_ext tools _ st _ st1 msgs1 hp
        obtain ⟨s2, h2⟩ := ih st1 msgs1 st' msgs' heq
        exact ⟨s1 ++ s2, by rw [h2, h1]; exact String.append_assoc _ _ _⟩

/-- Counterexample to C7: a concrete round over subquestions
`["q1", "q2"]` starting from empty evidence.  After `q1` accepts one
chunk, the state whose summary the executor embeds into `q2`'s system
framing is the incrementally extended initial summary, which differs
from the summary the claim prescribes (freshly rebuilt from the most
recent accumulated chunks with the fixed 100-character preview
format). -/
theorem c7_summary_counterexample :
    hashesInit [] = some [] ∧
    initialSummary [] = some "No evidence gathered yet." ∧
    (execSubqs exAI [searchTool] ["q1"]
        ⟨[], [], [], "No evidence gathered yet."⟩).map EState.summary =
      some "No evidence gathered yet.\n- hello..." ∧
    (execSubqs exAI [searchTool] ["q1"]
        ⟨[], [], [], "No evidence gathered yet."⟩).map
        (fun st => initialSummary st.evidence) =
      some (some "Prior Evidence:\n- hello...\n") ∧
    "No evidence gathered yet.\n- hello..." ≠ "Prior Evidence:\n- hello...\n" := by
  exact ⟨by decide, by decide, by decide, by decide, by decide⟩

/-- C7 as amended: the running summary is built once per executor
invocation — the explicit no-evidence marker when the accumulator is
empty, and otherwise a function of only the 5 most recently accumulated
chunks (100-character previews) — and thereafter grows append-only:
processing a subquestion only appends to it, and each newly accepted
chunk appends its 150-character preview. -/
theorem c7_summary_amended :
    initialSummary [] = some "No evidence gathered yet." ∧
    (∀ es es' : List PyVal, lastN 5 es = lastN 5 es' → es ≠ [] → es' ≠ [] →
      initialSummary es = initialSummary es') ∧
    (∀ (ai : List Msg → AIMsg) (tools : List ToolDef) (st : EState) (sq : String)
        (st' : EState), processSubq ai tools st sq = some st' →
      ∃ suffix, st'.summary = st.summary ++ suffix) ∧
    (∀ (st : EState) (c : PyVal) (h : String) (s : String),
        compute_chunk_hash c = some h → h ∉ st.hashes →
        dictGetD c "content" (pystr "") = pystr s →
        (mergeChunksE st [c]).1.summary =
          st.summary ++ ("\n- " ++ strTake 150 (pyStrip s) ++ "...")) := by
  refine ⟨by decide, ?_, ?_, ?_⟩
  · intro es es' hlast hne hne'
    have h0 : ¬ es.length = 0 := by simpa [List.length_eq_zero] using hne
    have h0' : ¬ es'.length = 0 := by simpa [List.length_eq_zero] using hne'
    simp only [initialSummary, h0, h0', if_false, hlast]
  · intro ai tools st sq st' heq
    simp only [processSubq, Option.map_eq_some'] at heq
    obtain ⟨⟨st1, msgs1⟩, hloop, hfst⟩ := heq
    cases hfst
    exact innerLoop_summary_ext ai tools 3
      { st with trace := st.trace ++ ["PLAN: " ++ sq] } _ st1 msgs1 hloop
  · intro st c h s hc hmem hcont
    have hd : pyIsDict c = true := by
      by_contra hnd
      simp only [compute_chunk_hash, Bool.not_eq_true] at hc hnd
      rw [hnd] at hc
      simp at hc
    have hp : previewItem c = some ("\n- " ++ strTake 150 (pyStrip s) ++ "...") := by
      simp [previewItem, hd, hcont]
    simp only [mergeChunksE, hc, hmem, if_false, hp]

/-- Closed witness for `c7_summary_amended` at concrete states. -/
theorem c7_summary_amended_witness :
    initialSummary (List.replicate 6 exChunk) = initialSummary (List.replicate 5 exChunk) ∧
    (∃ suffix, ((processSubq exAI [searchTool]
        ⟨[], [], [], "No evidence gathered yet."⟩ "q1").getD emptyEState).summary =
      "No evidence gathered yet." ++ suffix) ∧
    (mergeChunksE emptyEState [exChunk]).1.summary =
      "" ++ ("\n- " ++ strTake 150 (pyStrip "hello") ++ "...") := by
  refine ⟨c7_summary_amended.2.1 (List.replicate 6 exChunk) (List.replicate 5 exChunk)
      (by decide) (by decide) (by decide), ?_, ?_⟩
  · exact c7_summary_amended.2.2.1 exAI [searchTool]
      ⟨[], [], [], "No evidence gathered yet."⟩ "q1" _ rfl
  · exact c7_summary_amended.2.2.2 emptyEState exChunk "S||1||hello" "hello"
      (by decide) (by decide) (by decide)

/-! ## Citation rendering (C8, C9) -/

/-- C8.  A full executor run over the specification's citation example
renders every accumulated chunk into the citation-tagged block: the
chunk `{source: "A", page: 3, content: "x"}` carries the tag
`[A, p. 3]` and `{source: "B", page: None, content: "y"}` the tag
`[B]`. -/
theorem c8_citation_rendering :
    executor_node ex8AI [dumpTool] ["q"] [] [] =
      some { tool_trace := ["PLAN: q", "TOOL: dump"],
             evidence_chunks := [chunkA, chunkB],
             retrieved_text := "[A, p. 3]\nx\n\n[B]\ny" } ∧
    renderEntry chunkA = some "[A, p. 3]\nx" ∧
    renderEntry chunkB = some "[B]\ny" ∧
    strContains "[A, p. 3]\nx\n\n[B]\ny" "[A, p. 3]" = true ∧
    strContains "[A, p. 3]\nx\n\n[B]\ny" "[B]" = true := by
  exact ⟨by decide, by decide, by decide, by decide, by decide⟩

/-- C9.  Page inclusion is decided by truthiness, not presence: in the
executor's rendering and in the app's referenced-sources list, a chunk
whose `page` is any falsy value (the integer 0, the empty string, or
`None`) is rendered exactly as if the page were absent. -/
theorem c9_page_truthiness :
    (∀ c : PyVal, pyIsDict c = true → pyTruthy (dictGetD c "page" pynone) = false →
      renderEntry c = some (("[" ++ pyStr (dictGetD c "source" (pystr "unknown")) ++ "]") ++
        "\n" ++ pyStr (dictGetD c "content" (pystr "")))) ∧
    (∀ src pg : PyVal, pyTruthy pg = false →
      citationLine src pg = "- *" ++ pyStr src ++ "*") ∧
    pyTruthy (pyint 0) = false ∧
    pyTruthy (pystr "") = false ∧
    renderEntry chunkPage0 = some "[Z]\nzero" ∧
    format_citations_from_chunks [chunkPage0] = "**Referenced Sources:**\n- *Z*" := by
  refine ⟨?_, ?_, by decide, by decide, by decide, by decide⟩
  · intro c hd hpg
    simp [renderEntry, hd, hpg]
  · intro src pg hpg
    simp [citationLine, hpg]

/-- Closed witness for `c9_page_truthiness` at a page-0 chunk and an
empty-string page. -/
theorem c9_page_truthiness_witness :
    renderEntry chunkPage0 =
      some (("[" ++ pyStr (dictGetD chunkPage0 "source" (pystr "unknown")) ++ "]") ++
        "\n" ++ pyStr (dictGetD chunkPage0 "content" (pystr ""))) ∧
    citationLine (pystr "Z") (pyint 0) = "- *" ++ pyStr (pystr "Z") ++ "*" ∧
    citationLine (pystr "Z") (pystr "") = "- *" ++ pyStr (pystr "Z") ++ "*" := by
  exact ⟨c9_page_truthiness.1 chunkPage0 (by decide) (by decide),
    c9_page_truthiness.2.1 (pystr "Z") (pyint 0) (by decide),
    c9_page_truthiness.2.1 (pystr "Z") (pystr "") (by decide)⟩

/-! ## Case-sensitive retry routing (C10) -/

/-- `d.get(key, dflt)` returns the default when the key is absent. -/
theorem dictGetD_not_has :
    ∀ (d : PyVal) (key : String) (dflt : PyVal), dictHasKey d key = false →
      dictGetD d key dflt = dflt := by
  intro d
  induction d with
  | pydcons k v tl ih1 ih2 =>
    intro key dflt hk
    simp only [dictHasKey, Bool.or_eq_false_iff, decide_eq_false_iff_not] at hk
    simp only [dictGetD, if_neg hk.1]
    exact ih2 key dflt hk.2
  | pydnil => intro key dflt _; rfl
  | pynone => intro key dflt _; rfl
  | pybool b => intro key dflt _; rfl
  | pyint n => intro key dflt _; rfl
  | pystr s => intro key dflt _; rfl
  | pyfloat raw => intro key dflt _; rfl
  | pynil => intro key dflt _; rfl
  | pycons h t ih1 ih2 => intro key dflt _; rfl

/-- C10.  The retry decision compares the critic status
case-sensitively against `"RETRY"`: a lowercase `"retry"` status, or
the `"OK"` default produced when a parsed mapping lacks a `status`
key, routes the run to finalize — while the keyword heuristic (used
only when both structured parses fail) detects `retry`
case-insensitively, and an exact `"RETRY"` within budget does loop. -/
theorem c10_case_sensitive_retry :
    (∀ rc mr : Nat, AgentModel.decide (pystr "retry") rc mr = "final") ∧
    (∀ d : PyVal, pyIsDict d = true → dictHasKey d "status" = false →
      pyGetOpt d "status" (pystr "OK") = some (pystr "OK")) ∧
    (∀ rc mr : Nat, AgentModel.decide (pystr "OK") rc mr = "final") ∧
    parse_critic_output "Please RETRY the search." =
      mkDict [("status", pystr "RETRY"), ("notes", pystr "Please RETRY the search.")] ∧
    AgentModel.decide (pystr "RETRY") 0 2 = "increment_retry" := by
  refine ⟨?_, ?_, ?_, by decide, by decide⟩
  · intro rc mr
    simp [AgentModel.decide]
  · intro d hd hk
    simp [pyGetOpt, hd, dictGetD_not_has d "status" (pystr "OK") hk]
  · intro rc mr
    simp [AgentModel.decide]

/-- Closed witness for `c10_case_sensitive_retry` at concrete statuses
and a status-less mapping. -/
theorem c10_case_sensitive_retry_witness :
    AgentModel.decide (pystr "retry") 0 2 = "final" ∧
    pyGetOpt (mkDict [("notes", pystr "needs work")]) "status" (pystr "OK") =
      some (pystr "OK") ∧
    AgentModel.decide (pystr "OK") 0 2 = "final" := by
  exact ⟨c10_case_sensitive_retry.1 0 2,
    c10_case_sensitive_retry.2.1 (mkDict [("notes", pystr "needs work")]) (by decide) (by decide),
    c10_case_sensitive_retry.2.2.1 0 2⟩

end AgentModel
